import Mathlib

/-!
Verification of the gss (Git/SSH Switcher) identity-store manager.

The Go program (src/main.go) manages a list of SSH key-pair records and an
active-index pointer, persisted as JSON in `~/.gss/config.json`.  This file
embeds the store data model, the persistence layer (`loadConfig`/`saveConfig`,
modelled at the JSON-AST level), and the `switch`/`delete`/`generate` command
logic, and proves properties of them.

Filesystem and subprocess effects are modelled by an explicit environment of
oracles (`Env`): file existence, file contents, `filepath.Abs`, and the
success of one `git config` set invocation.  Commands that call `os.Exit`
before the deferred `saveConfig` runs are modelled as returning an error, in
which case the persisted store is unchanged.
-/

namespace Gss

/-- JSON values, the codomain of Go's `encoding/json` unmarshalling of
`interface{}` fields (`git_config` is a `map[string]interface{}`).  Objects
keep their fields as an association list.  Numbers are modelled as integers,
which covers every number the program itself writes (`active_key`). -/
inductive Json where
  | null : Json
  | bool (b : Bool) : Json
  | num (n : Int) : Json
  | str (s : String) : Json
  | arr (elems : List Json) : Json
  | obj (fields : List (String × Json)) : Json

/-- One managed key pair: Go struct `SSHKeyPairConfig` (src/main.go:23-29).
`GitConfig` is `Option` because a Go map can be `nil` (JSON `null` / missing
key), which the switch logic distinguishes from an empty map. -/
structure SSHKeyPairConfig where
  Name : String
  PrivateKeyPath : String
  PublicKeyPath : String
  SSHConfig : String
  GitConfig : Option (List (String × Json))

/-- The whole store: Go struct `SSHConfig` (src/main.go:31-36).  `ConfigPath`
and `SSHConfig` carry the json:"-" tag and are never serialized. -/
structure SSHConfig where
  Keys : List SSHKeyPairConfig
  ActiveKey : Int
  ConfigPath : String
  SSHConfig : String

/-- `filepath.Join` of a directory and one component. -/
def pathJoin (dir name : String) : String := dir ++ "/" ++ name

/-- The store as `main` constructs it before `loadConfig` runs
(src/main.go:46-49): only the two path fields are set, so `Keys` is the nil
slice and `ActiveKey` is Go's zero value `0`. -/
def initialStore (home : String) : SSHConfig :=
  { Keys := []
    ActiveKey := 0
    ConfigPath := pathJoin home ".gss"
    SSHConfig := pathJoin (pathJoin home ".ssh") "config" }

/-- The persistence invariant claimed by the spec: a persisted active index
that is not the unset sentinel `-1` is a valid index into the key list. -/
def persistInvariant (c : SSHConfig) : Prop :=
  c.ActiveKey ≠ -1 → 0 ≤ c.ActiveKey ∧ c.ActiveKey < c.Keys.length

/-! ## Serialization (saveConfig / loadConfig, src/main.go:424-454)

`json.MarshalIndent` / `json.Unmarshal` are modelled at the JSON-AST level:
`encode*` builds the tree that marshalling would print, `decode*` reads the
tree that unmarshalling would have parsed.  A `nil` Go map marshals to JSON
`null` and a missing / `null` `git_config` unmarshals to a `nil` map. -/

/-- JSON tree written for one record (field names from the struct tags). -/
def encodeKey (k : SSHKeyPairConfig) : Json :=
  .obj [("name", .str k.Name),
        ("private_key_path", .str k.PrivateKeyPath),
        ("public_key_path", .str k.PublicKeyPath),
        ("ssh_config", .str k.SSHConfig),
        ("git_config", match k.GitConfig with
          | none => .null
          | some gc => .obj gc)]

/-- JSON tree written by `saveConfig`: only the `keys` and `active_key`
fields; `ConfigPath`/`SSHConfig` carry json:"-". -/
def encodeStore (keys : List SSHKeyPairConfig) (activeKey : Int) : Json :=
  .obj [("keys", .arr (keys.map encodeKey)),
        ("active_key", .num activeKey)]

/-- Field lookup in a JSON object's association list. -/
def jsonLookup (fields : List (String × Json)) (name : String) : Option Json :=
  match fields with
  | [] => none
  | (k, v) :: rest => if k = name then some v else jsonLookup rest name

/-- Unmarshal a string-typed struct field; a missing field keeps the zero
value `""`. -/
def decodeStr (fields : List (String × Json)) (name : String) : Option String :=
  match jsonLookup fields name with
  | none => some ""
  | some (.str s) => some s
  | some _ => none

/-- Unmarshal one record. -/
def decodeKey (j : Json) : Option SSHKeyPairConfig :=
  match j with
  | .obj fields =>
    match decodeStr fields "name", decodeStr fields "private_key_path",
          decodeStr fields "public_key_path", decodeStr fields "ssh_config" with
    | some n, some priv, some pub, some sc =>
      match jsonLookup fields "git_config" with
      | none => some ⟨n, priv, pub, sc, none⟩
      | some .null => some ⟨n, priv, pub, sc, none⟩
      | some (.obj gc) => some ⟨n, priv, pub, sc, some gc⟩
      | some _ => none
    | _, _, _, _ => none
  | _ => none

/-- Unmarshal a list of records. -/
def decodeKeys (js : List Json) : Option (List SSHKeyPairConfig) :=
  match js with
  | [] => some []
  | j :: rest =>
    match decodeKey j, decodeKeys rest with
    | some k, some ks => some (k :: ks)
    | _, _ => none

/-- Unmarshal the persisted store: yields the key list and the active index.
Missing fields keep the zero values of the receiver (`[]` and `0`). -/
def decodeStore (j : Json) : Option (List SSHKeyPairConfig × Int) :=
  match j with
  | .obj fields =>
    match (match jsonLookup fields "keys" with
           | none => some []
           | some (.arr js) => decodeKeys js
           | some .null => some []
           | some _ => none) with
    | none => none
    | some ks =>
      match jsonLookup fields "active_key" with
      | none => some (ks, 0)
      | some (.num n) => some (ks, n)
      | some _ => none
  | _ => none

/-- Errors on which the Go program prints a message and calls `os.Exit`,
skipping the deferred `saveConfig`. -/
inductive GssError where
  | configCorrupt : GssError
  | indexOutOfRange : GssError
  | noKeys : GssError
  | privKeyNotFound : GssError
  | sshFragmentNotFound : GssError

/-- `loadConfig` (src/main.go:424-440): `disk` is the content of
`config.json`, `none` when the file does not exist.  A missing file resets
`Keys` to the empty slice and returns — `ActiveKey` keeps whatever value the
receiver had (the zero value `0` when called from `main`). -/
def loadConfig (disk : Option Json) (c : SSHConfig) : Except GssError SSHConfig :=
  match disk with
  | none => .ok { c with Keys := [] }
  | some j =>
    match decodeStore j with
    | none => .error .configCorrupt
    | some (ks, ak) => .ok { c with Keys := ks, ActiveKey := ak }

/-- `saveConfig` (src/main.go:442-454): the JSON tree written to
`config.json`. -/
def saveConfig (c : SSHConfig) : Json := encodeStore c.Keys c.ActiveKey

/-- `listCmd` (src/main.go:154-158): prints the store and leaves it
unchanged. -/
def listCmd (c : SSHConfig) : SSHConfig := c

/-! ## delete (deleteCmd, src/main.go:338-422)

Modelled on the `-i <index> -f` path (no interactive prompt, no
confirmation).  The `Bool` in the result records whether the command wrote
the empty string over the generated SSH config file (src/main.go:413). -/

/-- Store after a delete, plus whether the SSH config file was cleared. -/
structure DeleteResult where
  store : SSHConfig
  clearedSSHConfig : Bool

/-- `deleteCmd` logic: bounds check, removal by slicing
(`append(Keys[:i], Keys[i+1:]...)`), then the active-index adjustment. -/
def deleteCmd (c : SSHConfig) (chosenIndex : Int) : Except GssError DeleteResult :=
  if c.Keys.length = 0 then .error .noKeys
  else if chosenIndex < 0 ∨ (c.Keys.length : Int) ≤ chosenIndex then .error .indexOutOfRange
  else if c.ActiveKey = chosenIndex then
    if 0 < (c.Keys.take chosenIndex.toNat ++ c.Keys.drop (chosenIndex.toNat + 1)).length then
      .ok ⟨{ c with
             Keys := c.Keys.take chosenIndex.toNat ++ c.Keys.drop (chosenIndex.toNat + 1)
             ActiveKey := 0 }, false⟩
    else
      .ok ⟨{ c with
             Keys := c.Keys.take chosenIndex.toNat ++ c.Keys.drop (chosenIndex.toNat + 1)
             ActiveKey := -1 }, true⟩
  else if chosenIndex < c.ActiveKey then
    .ok ⟨{ c with
           Keys := c.Keys.take chosenIndex.toNat ++ c.Keys.drop (chosenIndex.toNat + 1)
           ActiveKey := c.ActiveKey - 1 }, false⟩
  else
    .ok ⟨{ c with
           Keys := c.Keys.take chosenIndex.toNat ++ c.Keys.drop (chosenIndex.toNat + 1)
           ActiveKey := c.ActiveKey }, false⟩

/-! ## switch (switchCmd, src/main.go:160-336)

Modelled on the `-i <index>` path.  External effects go through an
environment of oracles; `git config` subprocess success is the oracle
`gitSet scope key value`. -/

/-- Oracles for the filesystem and the `git` subprocess. -/
structure Env where
  fileExists : String → Bool
  readFile : String → String
  abs : String → String
  gitSet : String → String → String → Bool

/-- Outcome of one `git config <key> <value>` application
(src/main.go:284-306): success, reported failure, or skip of a non-string
value. -/
inductive GitReport where
  | applied (key val : String) : GitReport
  | failed (key : String) : GitReport
  | skippedNonString (key : String) : GitReport

/-- Go map assignment `m[k] = v` on the association-list model: overwrite an
existing entry, else add one. -/
def mapSet (l : List (String × Json)) (k : String) (v : Json) : List (String × Json) :=
  if l.any (fun kv => kv.1 = k) then
    l.map (fun kv => if kv.1 = k then (k, v) else kv)
  else l ++ [(k, v)]

/-- The injected `core.sshCommand` value (src/main.go:281):
`ssh -F <store SSH config path with backslashes replaced by slashes>`. -/
def sshCommandValue (c : SSHConfig) : String :=
  "ssh -F " ++ c.SSHConfig.replace "\\" "/"

/-- One iteration of the git-settings loop: a string value is passed to
`git config` (whose success the oracle decides, failure only printed), any
other value type is skipped with a warning. -/
def applyGitReport (env : Env) (scope : String) (kv : String × Json) : GitReport :=
  match kv.2 with
  | .str v => if env.gitSet scope kv.1 v then .applied kv.1 v else .failed kv.1
  | _ => .skippedNonString kv.1

/-- The whole git-settings loop: each entry handled independently. -/
def applyGitConfig (env : Env) (scope : String) (gc : List (String × Json)) :
    List GitReport :=
  gc.map (applyGitReport env scope)

/-- Outcome of a successful switch: the mutated store, the content written
over the generated SSH config file, and the per-key git reports. -/
structure SwitchResult where
  store : SSHConfig
  sshConfigContent : String
  gitReports : List GitReport

/-- Zero record, used only under a bounds check. -/
def defaultKey : SSHKeyPairConfig := ⟨"", "", "", "", none⟩

/-- `switchCmd` logic: bounds check, set `ActiveKey`, require the private
key file, build the SSH config content (`IdentityFile` line, plus newline
and verbatim fragment content when a fragment is configured), then inject
`core.sshCommand` and run the git-settings loop.  Because `GitConfig` is a
Go map (a reference), the in-place injection also updates the record stored
in `Keys`, which the deferred `saveConfig` then persists. -/
def switchCmd (env : Env) (scope : String) (c : SSHConfig) (chosenIndex : Int) :
    Except GssError SwitchResult :=
  if chosenIndex < 0 ∨ (c.Keys.length : Int) ≤ chosenIndex then .error .indexOutOfRange
  else
    let n := chosenIndex.toNat
    let c1 := { c with ActiveKey := chosenIndex }
    let key := c.Keys.getD n defaultKey
    if env.fileExists key.PrivateKeyPath = false then .error .privKeyNotFound
    else
      let predefinedConfig := "IdentityFile " ++ key.PrivateKeyPath
      match (if key.SSHConfig ≠ "" then
               (if env.fileExists (env.abs key.SSHConfig) = false then
                  .error .sshFragmentNotFound
                else
                  .ok (predefinedConfig ++ "\n" ++ env.readFile (env.abs key.SSHConfig)))
             else (.ok predefinedConfig : Except GssError String)) with
      | .error e => .error e
      | .ok configContent =>
        match key.GitConfig with
        | none => .ok ⟨c1, configContent, []⟩
        | some gc =>
          let gc2 := mapSet gc "core.sshCommand" (.str (sshCommandValue c))
          let c2 := { c1 with Keys := c1.Keys.set n { key with GitConfig := some gc2 } }
          .ok ⟨c2, configContent, applyGitConfig env scope gc2⟩

/-! ## generate (generateKeyPair and getUniqueFilePaths, src/main.go:456-524
and 621-634)

Key-material generation is an external collaborator; the store-level logic
is the unique-path search and the record append.  `ex` is the
file-existence oracle; the unbounded Go `for` loop gets an explicit fuel
bound on its iteration count. -/

/-- The i-th candidate file name tried for base name `b`: `b.key`, then
`b_1.key`, `b_2.key`, … -/
def candName (baseName : String) : Nat → String
  | 0 => baseName ++ ".key"
  | i + 1 => baseName ++ "_" ++ toString (i + 1) ++ ".key"

/-- The i-th candidate private-key path. -/
def candPath (configPath baseName : String) (i : Nat) : String :=
  pathJoin configPath (candName baseName i)

/-- The `for i := 1; ; i++` loop of `getUniqueFilePaths`: if the current
candidate does not exist, stop; else move to `baseName_i.key`. -/
def uniqueLoop (ex : String → Bool) (configPath baseName : String) :
    Nat → Nat → String → String × String
  | 0, _, priv => (priv, priv ++ ".pub")
  | fuel + 1, i, priv =>
    if ex priv then
      uniqueLoop ex configPath baseName fuel (i + 1)
        (pathJoin configPath (baseName ++ "_" ++ toString i ++ ".key"))
    else (priv, priv ++ ".pub")

/-- `getUniqueFilePaths` (src/main.go:621-634). -/
def getUniqueFilePaths (ex : String → Bool) (configPath baseName : String)
    (fuel : Nat) : String × String :=
  uniqueLoop ex configPath baseName fuel 1 (pathJoin configPath (baseName ++ ".key"))

/-- `generateKeyPair` (src/main.go:456-524): default name `id_rsa`, unique
path search, key files written at the two paths, record appended with no
SSH fragment and an empty (non-nil) git map.  Returns the store and the two
paths. -/
def generateKeyPair (ex : String → Bool) (fuel : Nat) (c : SSHConfig)
    (name : String) : SSHConfig × String × String :=
  let realName := if name = "" then "id_rsa" else name
  let pp := getUniqueFilePaths ex c.ConfigPath realName fuel
  ({ c with Keys := c.Keys ++ [⟨realName, pp.1, pp.2, "", some []⟩] }, pp.1, pp.2)

/-- File-existence oracle after the two key files of a generate have been
written. -/
def afterCreate (ex : String → Bool) (priv pub : String) : String → Bool :=
  fun s => s == priv || s == pub || ex s

/-! ## Theorems -/

/-- C1.  The claimed persistence invariant fails on the code: when no
persisted file exists, `main` starts from the Go zero value `ActiveKey = 0`,
`loadConfig` only resets `Keys` to the empty slice, and a run of the `list`
command then persists `active_key = 0` with zero identities — `0` is not the
unset sentinel `-1`, yet it is not a valid index into the empty sequence. -/
theorem freshRunViolatesActiveIndexInvariant :
    ∃ c, loadConfig none (initialStore "/home/user") = Except.ok c ∧
      saveConfig (listCmd c) = encodeStore [] 0 ∧
      (listCmd c).ActiveKey = 0 ∧ (listCmd c).Keys = [] ∧
      ¬ persistInvariant (listCmd c) := by
  refine ⟨_, rfl, rfl, rfl, rfl, fun h => ?_⟩
  have h2 := h (by decide)
  simp [initialStore, listCmd, loadConfig] at h2

/-- C2.  Deleting the record at the active index removes exactly that record
and re-points the active index to `0` if any records remain, to the unset
sentinel `-1` if none do. -/
theorem deleteActiveSetsZeroOrUnset (c : SSHConfig) (i : Int)
    (h0 : 0 ≤ i) (h1 : i < (c.Keys.length : Int)) (ha : c.ActiveKey = i) :
    ∃ r, deleteCmd c i = .ok r ∧
      r.store.Keys = c.Keys.eraseIdx i.toNat ∧
      (0 < r.store.Keys.length → r.store.ActiveKey = 0) ∧
      (r.store.Keys.length = 0 → r.store.ActiveKey = -1) := by
  have hne : ¬ c.Keys.length = 0 := by omega
  have hrange : ¬ (i < 0 ∨ (c.Keys.length : Int) ≤ i) := by omega
  rw [deleteCmd, if_neg hne, if_neg hrange, if_pos ha]
  rw [← List.eraseIdx_eq_take_drop_succ]
  by_cases hk : 0 < (c.Keys.eraseIdx i.toNat).length
  · rw [if_pos hk]
    exact ⟨_, rfl, rfl, fun _ => rfl, fun h => absurd h (Nat.pos_iff_ne_zero.mp hk)⟩
  · rw [if_neg hk]
    exact ⟨_, rfl, rfl, fun h => absurd h hk, fun _ => rfl⟩

/-- C3.  Deleting a valid index `i` strictly below the active index
decrements the active index by one, and (when the active index itself is in
range) the decremented index still denotes the same record; deleting a valid
index strictly above the active index leaves the active index unchanged. -/
theorem deleteBelowDecrementsActive (c : SSHConfig) (i : Int)
    (h0 : 0 ≤ i) (h1 : i < (c.Keys.length : Int)) :
    (i < c.ActiveKey →
      ∃ r, deleteCmd c i = .ok r ∧
        r.store.ActiveKey = c.ActiveKey - 1 ∧
        (c.ActiveKey < (c.Keys.length : Int) →
          r.store.Keys[(c.ActiveKey - 1).toNat]? = c.Keys[c.ActiveKey.toNat]?)) ∧
    (c.ActiveKey < i →
      ∃ r, deleteCmd c i = .ok r ∧ r.store.ActiveKey = c.ActiveKey) := by
  have hne : ¬ c.Keys.length = 0 := by omega
  have hrange : ¬ (i < 0 ∨ (c.Keys.length : Int) ≤ i) := by omega
  constructor
  · intro hlt
    rw [deleteCmd, if_neg hne, if_neg hrange, if_neg (by omega), if_pos hlt]
    refine ⟨_, rfl, rfl, fun hub => ?_⟩
    rw [show c.Keys.take i.toNat ++ c.Keys.drop (i.toNat + 1)
          = c.Keys.eraseIdx i.toNat from (List.eraseIdx_eq_take_drop_succ _ _).symm,
        List.getElem?_eraseIdx_of_ge _ _ _ (by omega)]
    congr 1
    omega
  · intro hgt
    rw [deleteCmd, if_neg hne, if_neg hrange, if_neg (by omega), if_neg (by omega)]
    exact ⟨_, rfl, rfl⟩

/-- C10 counterexample.  Deleting the last remaining record does not always
clear the SSH config file: with the persisted state `keys = [b]`,
`active_key = -1` (reachable via generate, delete, generate across runs —
`generateKeyPair` never touches `ActiveKey`), deleting index 0 empties the
store but the clear branch requires `ActiveKey == chosenIndex` and is
skipped. -/
theorem deleteLastNotAlwaysClears :
    ∃ r, deleteCmd ⟨[⟨"b", "/p", "/q", "", none⟩], -1, "/h/.gss", "/h/.ssh/config"⟩ 0
        = .ok r ∧
      r.store.Keys = [] ∧ r.clearedSSHConfig = false :=
  ⟨_, rfl, rfl, rfl⟩

/-- C10 amended.  A delete of a valid index writes empty content over the
generated SSH config file exactly when the deleted index equals the active
index and no records remain afterwards; in every other case — in particular
whenever other records remain — the file is untouched. -/
theorem deleteClearsIffActiveAndEmpty (c : SSHConfig) (i : Int)
    (h0 : 0 ≤ i) (h1 : i < (c.Keys.length : Int)) :
    ∃ r, deleteCmd c i = .ok r ∧
      (r.clearedSSHConfig = true ↔ c.ActiveKey = i ∧ r.store.Keys.length = 0) := by
  have hne : ¬ c.Keys.length = 0 := by omega
  have hrange : ¬ (i < 0 ∨ (c.Keys.length : Int) ≤ i) := by omega
  rw [deleteCmd, if_neg hne, if_neg hrange]
  by_cases ha : c.ActiveKey = i
  · rw [if_pos ha]
    by_cases hk : 0 < (c.Keys.take i.toNat ++ c.Keys.drop (i.toNat + 1)).length
    · rw [if_pos hk]
      refine ⟨_, rfl, ?_⟩
      simp only [Bool.false_eq_true, false_iff]
      omega
    · rw [if_neg hk]
      refine ⟨_, rfl, ?_⟩
      simp only [true_iff]
      exact ⟨ha, by omega⟩
  · by_cases hlt : i < c.ActiveKey
    · rw [if_neg ha, if_pos hlt]
      refine ⟨_, rfl, ?_⟩
      simp only [Bool.false_eq_true, false_iff]
      exact fun h => ha h.1
    · rw [if_neg ha, if_neg hlt]
      refine ⟨_, rfl, ?_⟩
      simp only [Bool.false_eq_true, false_iff]
      exact fun h => ha h.1

/-- C4.  `switchCmd` validates `0 ≤ index < count`: outside that range it
fails with the index-out-of-range error before mutating anything — and since
the failure path exits the process before the deferred `saveConfig`, the
persisted store is exactly the loaded one.  Inside the range (and with the
referenced files present, which is the rest of the success path) it succeeds
and the resulting store has `ActiveKey = index`. -/
theorem switchIndexValidation (env : Env) (scope : String) (c : SSHConfig) (i : Int) :
    ((i < 0 ∨ (c.Keys.length : Int) ≤ i) →
      switchCmd env scope c i = .error .indexOutOfRange) ∧
    (0 ≤ i → i < (c.Keys.length : Int) →
      env.fileExists (c.Keys.getD i.toNat defaultKey).PrivateKeyPath = true →
      (¬ (c.Keys.getD i.toNat defaultKey).SSHConfig = "" →
        env.fileExists (env.abs (c.Keys.getD i.toNat defaultKey).SSHConfig) = true) →
      ∃ r, switchCmd env scope c i = .ok r ∧ r.store.ActiveKey = i) := by
  constructor
  · intro h
    rw [switchCmd, if_pos h]
  · intro h0 h1 hp hf
    have hrange : ¬ (i < 0 ∨ (c.Keys.length : Int) ≤ i) := by omega
    simp only [switchCmd]
    rw [if_neg hrange, hp, if_neg (by simp)]
    by_cases hs : (c.Keys.getD i.toNat defaultKey).SSHConfig = ""
    · rw [if_neg (not_not_intro hs)]
      cases hgc : (c.Keys.getD i.toNat defaultKey).GitConfig with
      | none => exact ⟨_, rfl, rfl⟩
      | some gc => exact ⟨_, rfl, rfl⟩
    · rw [if_pos hs, hf hs, if_neg (by simp)]
      cases hgc : (c.Keys.getD i.toNat defaultKey).GitConfig with
      | none => exact ⟨_, rfl, rfl⟩
      | some gc => exact ⟨_, rfl, rfl⟩

/-- C6.  On a successful switch the SSH config file content is exactly the
one `IdentityFile <private key path>` line when the record configures no SSH
fragment, and exactly that line, a newline, and the verbatim content of the
fragment file otherwise. -/
theorem switchSSHConfigContent (env : Env) (scope : String) (c : SSHConfig)
    (i : Int) (key : SSHKeyPairConfig)
    (h0 : 0 ≤ i) (h1 : i < (c.Keys.length : Int))
    (hk : c.Keys.getD i.toNat defaultKey = key)
    (hp : env.fileExists key.PrivateKeyPath = true)
    (hf : ¬ key.SSHConfig = "" → env.fileExists (env.abs key.SSHConfig) = true) :
    ∃ r, switchCmd env scope c i = .ok r ∧
      r.sshConfigContent =
        (if key.SSHConfig = "" then "IdentityFile " ++ key.PrivateKeyPath
         else "IdentityFile " ++ key.PrivateKeyPath ++ "\n"
                ++ env.readFile (env.abs key.SSHConfig)) := by
  have hrange : ¬ (i < 0 ∨ (c.Keys.length : Int) ≤ i) := by omega
  simp only [switchCmd]
  rw [hk, if_neg hrange, hp, if_neg (by simp)]
  by_cases hs : key.SSHConfig = ""
  · rw [if_neg (not_not_intro hs), if_pos hs]
    cases hgc : key.GitConfig with
    | none => exact ⟨_, rfl, rfl⟩
    | some gc => exact ⟨_, rfl, rfl⟩
  · rw [if_pos hs, hf hs, if_neg (by simp), if_neg hs]
    cases hgc : key.GitConfig with
    | none => exact ⟨_, rfl, rfl⟩
    | some gc => exact ⟨_, rfl, rfl⟩

/-- Normal form of a successful `switchCmd`: helper lemma shared by the
git-configuration theorems below. -/
theorem switchCmd_eq_ok (env : Env) (scope : String) (c : SSHConfig) (i : Int)
    (key : SSHKeyPairConfig)
    (h0 : 0 ≤ i) (h1 : i < (c.Keys.length : Int))
    (hk : c.Keys.getD i.toNat defaultKey = key)
    (hp : env.fileExists key.PrivateKeyPath = true)
    (hf : ¬ key.SSHConfig = "" → env.fileExists (env.abs key.SSHConfig) = true) :
    switchCmd env scope c i = .ok
      { store :=
          match key.GitConfig with
          | none => { c with ActiveKey := i }
          | some gc =>
              { c with
                ActiveKey := i
                Keys := c.Keys.set i.toNat { key with GitConfig := some (mapSet gc "core.sshCommand" (.str (sshCommandValue c))) } }
        sshConfigContent :=
          if key.SSHConfig = "" then "IdentityFile " ++ key.PrivateKeyPath
          else "IdentityFile " ++ key.PrivateKeyPath ++ "\n"
                 ++ env.readFile (env.abs key.SSHConfig)
        gitReports :=
          match key.GitConfig with
          | none => []
          | some gc =>
              applyGitConfig env scope
                (mapSet gc "core.sshCommand" (.str (sshCommandValue c))) } := by
  have hrange : ¬ (i < 0 ∨ (c.Keys.length : Int) ≤ i) := by omega
  simp only [switchCmd]
  rw [hk, if_neg hrange, hp, if_neg (by simp)]
  by_cases hs : key.SSHConfig = ""
  · rw [if_neg (not_not_intro hs), if_pos hs]
    cases hgc : key.GitConfig with
    | none => rfl
    | some gc => rfl
  · rw [if_pos hs, hf hs, if_neg (by simp), if_neg hs]
    cases hgc : key.GitConfig with
    | none => rfl
    | some gc => rfl

/-- C7 counterexample.  The claim's "regardless of whether its git_settings
map was empty or absent" is false for an absent (nil) map: switching to a
record whose `GitConfig` is nil takes the skip branch (src/main.go:277-278),
so no `core.sshCommand` is injected and no git setting is applied. -/
theorem switchNilGitConfigSkipsInjection :
    ∃ r, switchCmd ⟨fun _ => true, fun _ => "", fun s => s, fun _ _ _ => true⟩
        "global" ⟨[⟨"b", "/p", "/q", "", none⟩], 0, "/h/.gss", "/h/.ssh/config"⟩ 0
        = .ok r ∧
      r.gitReports = [] ∧
      (r.store.Keys.getD 0 defaultKey).GitConfig = none :=
  ⟨_, rfl, rfl, rfl⟩

/-- C7 amended.  For a record whose git_settings map is present (non-nil),
a successful switch injects/overwrites `core.sshCommand` in the record's map
— its value built from the store's own SSH config path with backslashes
replaced by forward slashes — before every key/value pair of the merged map
is applied to the chosen scope; the injection is visible in the record the
store keeps (and later persists). -/
theorem switchInjectsSshCommand (env : Env) (scope : String) (c : SSHConfig)
    (i : Int) (key : SSHKeyPairConfig) (gc : List (String × Json))
    (h0 : 0 ≤ i) (h1 : i < (c.Keys.length : Int))
    (hk : c.Keys.getD i.toNat defaultKey = key)
    (hgc : key.GitConfig = some gc)
    (hp : env.fileExists key.PrivateKeyPath = true)
    (hf : ¬ key.SSHConfig = "" → env.fileExists (env.abs key.SSHConfig) = true) :
    ∃ r, switchCmd env scope c i = .ok r ∧
      (r.store.Keys.getD i.toNat defaultKey).GitConfig =
        some (mapSet gc "core.sshCommand"
          (.str ("ssh -F " ++ c.SSHConfig.replace "\\" "/"))) ∧
      r.gitReports =
        applyGitConfig env scope (mapSet gc "core.sshCommand"
          (.str ("ssh -F " ++ c.SSHConfig.replace "\\" "/"))) := by
  refine ⟨_, switchCmd_eq_ok env scope c i key h0 h1 hk hp hf, ?_, ?_⟩
  · rw [hgc]
    show ((c.Keys.set i.toNat _).getD i.toNat defaultKey).GitConfig = _
    rw [List.getD_eq_getElem?_getD, List.getElem?_set_self (by omega)]
    rfl
  · rw [hgc]
    rfl

/-- C8.  The git-settings loop is independent per key: the reports are a
`map` over the merged settings, so each entry's outcome is a function of
that entry alone, a failure on one key is reported as `failed` for that key
while every other entry is still processed, and the switch as a whole — the
resulting store and SSH config content — is identical under any two
environments that agree on the filesystem but differ arbitrarily in git
success. -/
theorem gitApplyIndependent (env env2 : Env) (scope : String) (c : SSHConfig)
    (i : Int) (key : SSHKeyPairConfig) (gc : List (String × Json))
    (h0 : 0 ≤ i) (h1 : i < (c.Keys.length : Int))
    (hk : c.Keys.getD i.toNat defaultKey = key)
    (hgc : key.GitConfig = some gc)
    (hp : env.fileExists key.PrivateKeyPath = true)
    (hf : ¬ key.SSHConfig = "" → env.fileExists (env.abs key.SSHConfig) = true)
    (he : env2.fileExists = env.fileExists) (hr : env2.readFile = env.readFile)
    (ha : env2.abs = env.abs) :
    ∃ r r2, switchCmd env scope c i = .ok r ∧ switchCmd env2 scope c i = .ok r2 ∧
      r2.store = r.store ∧ r2.sshConfigContent = r.sshConfigContent ∧
      r.gitReports = (mapSet gc "core.sshCommand" (.str (sshCommandValue c))).map
        (applyGitReport env scope) ∧
      r2.gitReports = (mapSet gc "core.sshCommand" (.str (sshCommandValue c))).map
        (applyGitReport env2 scope) ∧
      r.gitReports.length
        = (mapSet gc "core.sshCommand" (.str (sshCommandValue c))).length := by
  have hp2 : env2.fileExists key.PrivateKeyPath = true := by rw [he]; exact hp
  have hf2 : ¬ key.SSHConfig = "" → env2.fileExists (env2.abs key.SSHConfig) = true := by
    intro h; rw [he, ha]; exact hf h
  refine ⟨_, _, switchCmd_eq_ok env scope c i key h0 h1 hk hp hf,
          switchCmd_eq_ok env2 scope c i key h0 h1 hk hp2 hf2, ?_, ?_, ?_, ?_, ?_⟩
  · rw [hgc]
  · rw [hr, ha]
  · rw [hgc]; rfl
  · rw [hgc]; rfl
  · rw [hgc]
    show (applyGitConfig env scope _).length = _
    simp [applyGitConfig]

/-- One record survives the marshal/unmarshal round trip. -/
theorem decodeKey_encodeKey (k : SSHKeyPairConfig) : decodeKey (encodeKey k) = some k := by
  cases k with
  | mk n priv pub sc gc =>
    cases gc with
    | none => rfl
    | some l => rfl

/-- A record list survives the round trip. -/
theorem decodeKeys_map (ks : List SSHKeyPairConfig) :
    decodeKeys (ks.map encodeKey) = some ks := by
  induction ks with
  | nil => rfl
  | cons k rest ih => simp [decodeKeys, decodeKey_encodeKey, ih]

/-- The whole persisted store survives the round trip. -/
theorem decodeStore_encodeStore (ks : List SSHKeyPairConfig) (ak : Int) :
    decodeStore (encodeStore ks ak) = some (ks, ak) := by
  simp [decodeStore, encodeStore, jsonLookup, decodeKeys_map]

/-- C5.  `save()` followed by `load()` reproduces an identical store: for any
store, loading its saved JSON into a fresh-process receiver restores exactly
the same records in the same order with the same field values, and the same
active index (the two path fields are not persisted; `main` recomputes them
identically from the home directory before every load). -/
theorem saveLoadRoundTrip (c c0 : SSHConfig) :
    loadConfig (some (saveConfig c)) c0 =
      .ok { c0 with Keys := c.Keys, ActiveKey := c.ActiveKey } := by
  simp [loadConfig, saveConfig, decodeStore_encodeStore]

/-- The unique-path search loop scans candidates upward: if the candidates
at offsets `m, m+1, …, m+k-1` all exist and the one at `m+k` does not, the
loop entered at offset `m` (counter `m+1`) stops exactly at `m+k`. -/
theorem uniqueLoop_spec (ex : String → Bool) (cp bn : String) :
    ∀ (k fuel m : Nat), k ≤ fuel →
      (∀ j, j < k → ex (candPath cp bn (m + j)) = true) →
      ex (candPath cp bn (m + k)) = false →
      uniqueLoop ex cp bn fuel (m + 1) (candPath cp bn m) =
        (candPath cp bn (m + k), candPath cp bn (m + k) ++ ".pub") := by
  intro k
  induction k with
  | zero =>
    intro fuel m hle hbusy hfree
    rw [Nat.add_zero] at hfree
    cases fuel with
    | zero => rfl
    | succ f => simp [uniqueLoop, hfree]
  | succ k ih =>
    intro fuel m hle hbusy hfree
    cases fuel with
    | zero => exact absurd hle (by omega)
    | succ f =>
      have h0 : ex (candPath cp bn m) = true := by
        have h := hbusy 0 (Nat.succ_pos k)
        rwa [Nat.add_zero] at h
      have hrec := ih f (m + 1) (by omega)
        (fun j hj => by
          have h := hbusy (j + 1) (by omega)
          rwa [show m + (j + 1) = m + 1 + j by omega] at h)
        (by rwa [show m + 1 + k = m + (k + 1) by omega])
      simp only [uniqueLoop, h0, if_true]
      rw [show m + (k + 1) = m + 1 + k by omega]
      exact hrec

/-- `getUniqueFilePaths` returns the first free candidate: `base.key` when
free, else the first free `base_i.key` scanning `i` upward from 1. -/
theorem getUniqueFilePaths_spec (ex : String → Bool) (cp bn : String) (k fuel : Nat)
    (hle : k ≤ fuel)
    (hbusy : ∀ j, j < k → ex (candPath cp bn j) = true)
    (hfree : ex (candPath cp bn k) = false) :
    getUniqueFilePaths ex cp bn fuel = (candPath cp bn k, candPath cp bn k ++ ".pub") := by
  have h := uniqueLoop_spec ex cp bn k fuel 0 hle
    (fun j hj => by simpa using hbusy j hj) (by simpa using hfree)
  simpa [getUniqueFilePaths, candPath, candName, pathJoin] using h

/-- Appending the `.pub` suffix is injective. -/
theorem append_pub_inj (a b : String) (h : a ++ ".pub" = b ++ ".pub") : a = b := by
  have hd := congrArg String.data h
  simp only [String.data_append] at hd
  exact String.ext (List.append_cancel_right hd)

/-- C9.  Two successive generates with the same non-empty name (the second
one seeing the files the first one wrote) place their key material at
distinct, non-colliding paths: the first stops at the first free candidate,
the second cannot stop at offset 0 (taken by then), so it takes a
`_i`-suffixed candidate, distinct in both private and public path, and the
two appended records carry those distinct paths. -/
theorem generateTwiceDistinctPaths (ex : String → Bool) (c : SSHConfig)
    (name : String) (fuel1 fuel2 k1 k2 : Nat) (hn : ¬ name = "")
    (hk1 : k1 ≤ fuel1)
    (hb1 : ∀ j, j < k1 → ex (candPath c.ConfigPath name j) = true)
    (hf1 : ex (candPath c.ConfigPath name k1) = false)
    (hk2 : k2 ≤ fuel2)
    (hb2 : ∀ j, j < k2 →
      afterCreate ex (candPath c.ConfigPath name k1)
        (candPath c.ConfigPath name k1 ++ ".pub") (candPath c.ConfigPath name j) = true)
    (hf2 : afterCreate ex (candPath c.ConfigPath name k1)
        (candPath c.ConfigPath name k1 ++ ".pub") (candPath c.ConfigPath name k2) = false) :
    (generateKeyPair ex fuel1 c name).2.1 = candPath c.ConfigPath name k1 ∧
    (generateKeyPair (afterCreate ex (candPath c.ConfigPath name k1)
        (candPath c.ConfigPath name k1 ++ ".pub")) fuel2
        (generateKeyPair ex fuel1 c name).1 name).2.1 = candPath c.ConfigPath name k2 ∧
    1 ≤ k2 ∧
    ¬ candPath c.ConfigPath name k2 = candPath c.ConfigPath name k1 ∧
    ¬ candPath c.ConfigPath name k2 ++ ".pub" = candPath c.ConfigPath name k1 ++ ".pub" ∧
    (generateKeyPair (afterCreate ex (candPath c.ConfigPath name k1)
        (candPath c.ConfigPath name k1 ++ ".pub")) fuel2
        (generateKeyPair ex fuel1 c name).1 name).1.Keys =
      c.Keys ++
        [⟨name, candPath c.ConfigPath name k1, candPath c.ConfigPath name k1 ++ ".pub",
          "", some []⟩,
         ⟨name, candPath c.ConfigPath name k2, candPath c.ConfigPath name k2 ++ ".pub",
          "", some []⟩] := by
  have hg1 := getUniqueFilePaths_spec ex c.ConfigPath name k1 fuel1 hk1 hb1 hf1
  have hex2self : afterCreate ex (candPath c.ConfigPath name k1)
      (candPath c.ConfigPath name k1 ++ ".pub") (candPath c.ConfigPath name k1) = true := by
    simp [afterCreate]
  have hg2 := getUniqueFilePaths_spec
    (afterCreate ex (candPath c.ConfigPath name k1) (candPath c.ConfigPath name k1 ++ ".pub"))
    c.ConfigPath name k2 fuel2 hk2 hb2 hf2
  have hne : ¬ candPath c.ConfigPath name k2 = candPath c.ConfigPath name k1 := by
    intro heq
    rw [heq, hex2self] at hf2
    simp at hf2
  have hk2pos : 1 ≤ k2 := by
    rcases Nat.eq_zero_or_pos k2 with h | h
    · exfalso
      subst h
      cases Nat.eq_zero_or_pos k1 with
      | inl h1 =>
        subst h1
        rw [hex2self] at hf2
        simp at hf2
      | inr h1 =>
        have hb := hb1 0 h1
        have : afterCreate ex (candPath c.ConfigPath name k1)
            (candPath c.ConfigPath name k1 ++ ".pub") (candPath c.ConfigPath name 0) = true := by
          simp [afterCreate, hb]
        rw [this] at hf2
        simp at hf2
    · exact h
  refine ⟨?_, ?_, hk2pos, hne, fun h => hne (append_pub_inj _ _ h), ?_⟩
  · simp [generateKeyPair, hn, hg1]
  · show (generateKeyPair _ fuel2 (generateKeyPair ex fuel1 c name).1 name).2.1 = _
    simp [generateKeyPair, hn, hg1, hg2]
  · simp [generateKeyPair, hn, hg1, hg2]

/-! ## Concrete fixtures for the witness theorems -/

/-- A record with no SSH fragment and a one-entry git map. -/
def keyW : SSHKeyPairConfig :=
  ⟨"w", "/h/.gss/w.key", "/h/.gss/w.key.pub", "", some [("user.email", .str "w@x")]⟩

/-- A record with an SSH fragment and a one-entry git map. -/
def keyV : SSHKeyPairConfig :=
  ⟨"v", "/h/.gss/v.key", "/h/.gss/v.key.pub", "/h/frag", some [("user.name", .str "V")]⟩

/-- A two-record store with active index 1. -/
def storeW : SSHConfig := ⟨[keyW, keyV], 1, "/h/.gss", "/h/.ssh/config"⟩

/-- Oracles: every file exists, fragment content fixed, git always succeeds. -/
def envW : Env :=
  ⟨fun _ => true, fun _ => "Host example\n  Port 22", fun s => s, fun _ _ _ => true⟩

/-- Same filesystem as `envW` but every git invocation fails. -/
def envW2 : Env :=
  ⟨fun _ => true, fun _ => "Host example\n  Port 22", fun s => s, fun _ _ _ => false⟩

/-- C2 witness: deleting the active index 1 of the two-record store. -/
theorem deleteActiveSetsZeroOrUnset_witness :
    ∃ r, deleteCmd storeW 1 = .ok r ∧
      r.store.Keys = storeW.Keys.eraseIdx (1 : Int).toNat ∧
      (0 < r.store.Keys.length → r.store.ActiveKey = 0) ∧
      (r.store.Keys.length = 0 → r.store.ActiveKey = -1) :=
  deleteActiveSetsZeroOrUnset storeW 1 (by decide) (by decide) rfl

/-- C3 witness: deleting index 0, strictly below the active index 1. -/
theorem deleteBelowDecrementsActive_witness :
    ∃ r, deleteCmd storeW 0 = .ok r ∧
      r.store.ActiveKey = storeW.ActiveKey - 1 ∧
      (storeW.ActiveKey < (storeW.Keys.length : Int) →
        r.store.Keys[(storeW.ActiveKey - 1).toNat]? = storeW.Keys[storeW.ActiveKey.toNat]?) :=
  (deleteBelowDecrementsActive storeW 0 (by decide) (by decide)).1 (by decide)

/-- C4 witness: switching to index 5 of the two-record store fails with the
out-of-range error; switching to index 0 succeeds and activates it. -/
theorem switchIndexValidation_witness :
    switchCmd envW "global" storeW 5 = .error .indexOutOfRange ∧
    (∃ r, switchCmd envW "global" storeW 0 = .ok r ∧ r.store.ActiveKey = 0) :=
  ⟨(switchIndexValidation envW "global" storeW 5).1 (by decide),
   (switchIndexValidation envW "global" storeW 0).2 (by decide) (by decide) rfl
     (fun h => absurd rfl h)⟩

/-- C6 witness: switching to the record with an SSH fragment. -/
theorem switchSSHConfigContent_witness :
    ∃ r, switchCmd envW "global" storeW 1 = .ok r ∧
      r.sshConfigContent =
        (if keyV.SSHConfig = "" then "IdentityFile " ++ keyV.PrivateKeyPath
         else "IdentityFile " ++ keyV.PrivateKeyPath ++ "\n"
                ++ envW.readFile (envW.abs keyV.SSHConfig)) :=
  switchSSHConfigContent envW "global" storeW 1 keyV (by decide) (by decide) rfl rfl
    (fun _ => rfl)

/-- C7 witness: switching to the record with a present one-entry git map. -/
theorem switchInjectsSshCommand_witness :
    ∃ r, switchCmd envW "global" storeW 0 = .ok r ∧
      (r.store.Keys.getD (0 : Int).toNat defaultKey).GitConfig =
        some (mapSet [("user.email", .str "w@x")] "core.sshCommand"
          (.str ("ssh -F " ++ storeW.SSHConfig.replace "\\" "/"))) ∧
      r.gitReports =
        applyGitConfig envW "global" (mapSet [("user.email", .str "w@x")] "core.sshCommand"
          (.str ("ssh -F " ++ storeW.SSHConfig.replace "\\" "/"))) :=
  switchInjectsSshCommand envW "global" storeW 0 keyW [("user.email", .str "w@x")]
    (by decide) (by decide) rfl rfl rfl (fun h => absurd rfl h)

/-- C8 witness: the same switch under an all-successes and an all-failures
git oracle. -/
theorem gitApplyIndependent_witness :
    ∃ r r2, switchCmd envW "global" storeW 0 = .ok r ∧
      switchCmd envW2 "global" storeW 0 = .ok r2 ∧
      r2.store = r.store ∧ r2.sshConfigContent = r.sshConfigContent ∧
      r.gitReports = (mapSet [("user.email", Json.str "w@x")] "core.sshCommand"
        (.str (sshCommandValue storeW))).map (applyGitReport envW "global") ∧
      r2.gitReports = (mapSet [("user.email", Json.str "w@x")] "core.sshCommand"
        (.str (sshCommandValue storeW))).map (applyGitReport envW2 "global") ∧
      r.gitReports.length = (mapSet [("user.email", Json.str "w@x")] "core.sshCommand"
        (.str (sshCommandValue storeW))).length :=
  gitApplyIndependent envW envW2 "global" storeW 0 keyW [("user.email", .str "w@x")]
    (by decide) (by decide) rfl rfl rfl (fun h => absurd rfl h) rfl rfl rfl

/-- C9 witness: two generates named `a` on an initially empty directory: the
first takes `a.key`, the second `a_1.key`, and the two paths differ. -/
theorem generateTwiceDistinctPaths_witness :
    (generateKeyPair (fun _ => false) 1 (initialStore "/h") "a").2.1
        = candPath (initialStore "/h").ConfigPath "a" 0 ∧
    (generateKeyPair (afterCreate (fun _ => false)
          (candPath (initialStore "/h").ConfigPath "a" 0)
          (candPath (initialStore "/h").ConfigPath "a" 0 ++ ".pub")) 2
        (generateKeyPair (fun _ => false) 1 (initialStore "/h") "a").1 "a").2.1
      = candPath (initialStore "/h").ConfigPath "a" 1 ∧
    ¬ candPath (initialStore "/h").ConfigPath "a" 1
        = candPath (initialStore "/h").ConfigPath "a" 0 :=
  have h := generateTwiceDistinctPaths (fun _ => false) (initialStore "/h") "a" 1 2 0 1
    (by decide) (by decide) (fun j hj => absurd hj (Nat.not_lt_zero j)) rfl
    (by decide)
    (fun j hj => by
      have hj0 : j = 0 := by omega
      subst hj0
      rfl)
    (by decide)
  ⟨h.1, h.2.1, h.2.2.2.1⟩

/-- C10 witness: deleting index 0 of the two-record store (not the active
record, another record remains): the file is untouched. -/
theorem deleteClearsIffActiveAndEmpty_witness :
    ∃ r, deleteCmd storeW 0 = .ok r ∧
      (r.clearedSSHConfig = true ↔ storeW.ActiveKey = 0 ∧ r.store.Keys.length = 0) :=
  deleteClearsIffActiveAndEmpty storeW 0 (by decide) (by decide)

end Gss
